import Mathlib

/-!
Verification of the Congress proof-of-stake-authority consensus engine
(package `congress`), formalised as a shallow embedding of the Go source.

Machine integers of the source (`uint64`, `uint32`, `*big.Int`) are
modelled as `Nat`; wrap-around is made explicit (`goSub64`, `% 2 ^ 32`)
exactly where the Go code performs subtraction or conversion that can
wrap.  Addresses and hashes are abstracted to `Nat`; cryptographic
recovery (`ecrecover`) is an oracle parameter (`Option Address`).
Contract-call execution (`vmcaller.ExecuteMsg`) is abstracted to an
oracle that reports success or failure and whose invocations are
recorded in an event trace; its EVM-level state effects are not modelled.
-/

/-- An Ethereum address, abstracted to a natural number. -/
abbrev Address := Nat

/-- Number of extra-data prefix bytes reserved for validator vanity. -/
def extraVanity : Nat := 32

/-- Number of extra-data suffix bytes reserved for the validator seal
(`crypto.SignatureLength`). -/
def extraSeal : Nat := 65

/-- `common.AddressLength` in bytes. -/
def addressLength : Nat := 20

/-- Keccak256(RLP([])), the hash of the empty uncle list
(`types.CalcUncleHash(nil)`). -/
def uncleHashEmpty : Nat :=
  0x1dcc4de8dec75d7aab85b567b6ccd41ad312451b948a7413f0a142fd40d49347

/-- `systemcontract.SysGovContractAddr` (0x…f003). -/
def SysGovContractAddr : Address := 0xf003

/-- `systemcontract.SysGovToAddr` (0x…ffff). -/
def SysGovToAddr : Address := 0xffff

/-- Modelled from the spec: the fixed fee-recorder address
(`consensus.FeeRecoder`, declared in the `consensus` package which is not
under src/).  Its concrete value is irrelevant to the claims; only its
role as a distinguished account matters. -/
def FeeRecoder : Address := 0x1000000000000000000000000000000000000000

/-- The consensus-relevant fields of `types.Header`.  `difficulty` is an
`Option` because the Go field is a `*big.Int` that may be nil; a nil
`Number` is not representable (all headers in the claims carry one).
`hashVal` stands for the header's hash, `parentHash` for the stored
parent-hash field. -/
structure Header where
  number : Nat
  time : Nat
  coinbase : Address
  difficulty : Option Nat
  parentHash : Nat
  hashVal : Nat
  extra : List Nat
  mixDigest : Nat
  uncleHash : Nat
  gasLimit : Nat
  gasUsed : Nat
  baseFee : Option Nat
deriving DecidableEq

/-- The consensus-relevant fields of `types.Transaction`: recipient
(`tx.To()`, nil for contract creation; `to` is a reserved token in Lean,
hence `toAddr`) and gas price. -/
structure Tx where
  toAddr : Option Address
  gasPrice : Nat
deriving DecidableEq

/-- The snapshot of the authority state at a given block
(`Snapshot` of the congress package; snapshot.go is not under src/, its
shape follows the spec, §3).  `validators` is the ascending-sorted list
of the `Validators` set (the list `Snapshot.validators()` returns);
`recents` is the `Recents` map from block number to the signer of that
block, as a key-unique association list. -/
structure Snapshot where
  number : Nat
  validators : List Address
  recents : List (Nat × Address)
deriving DecidableEq

/-- Go `uint64` subtraction `a - b` (wraps modulo `2 ^ 64`); faithful for
`a b < 2 ^ 64`. -/
def goSub64 (a b : Nat) : Nat := (a + 2 ^ 64 - b) % 2 ^ 64

/-- Modelled from the spec: `Snapshot.inturn` (snapshot.go is not under
src/).  Per §4.2/§8 of the spec, the in-turn validator for block `number`
is `Validators[number mod |Validators|]` under ascending address order,
which is exactly `validators.getD (number % validators.length)` on the
sorted list. -/
def Snapshot.inturn (s : Snapshot) (number : Nat) (validator : Address) : Bool :=
  s.validators.getD (number % s.validators.length) 0 == validator

/-- `calcDifficulty`: 2 for an in-turn validator at the next block,
1 otherwise. -/
def calcDifficulty (snap : Snapshot) (validator : Address) : Nat :=
  if snap.inturn (snap.number + 1) validator then 2 else 1

/-- Errors produced by header and seal verification (the package-level
error values of congress). -/
inductive VErr where
  | futureBlock
  | missingVanity
  | missingSignature
  | extraValidators
  | invalidMixDigest
  | invalidUncleHash
  | invalidDifficulty
  | gasLimitTooHigh
  | forkHashMismatch
  | unknownAncestor
  | invalidTimestamp
  | gasUsedExceeds
  | baseFeeBeforeFork
  | gasLimitBound
  | eip1559Invalid
  | unknownBlock
  | snapshotFailed
  | ecrecoverFailed
  | invalidCoinbase
  | unauthorizedValidator
  | recentlySigned
  | wrongDifficulty
deriving DecidableEq

/-- The loop body of the `Recents` scan in `verifySeal`: the signer is
rejected when it appears in `recents` at a block number `seen` with
`seen > number - limit` under Go `uint64` subtraction, where
`limit = len(Validators)/2 + 1`. -/
def recentlySignedCheck (snap : Snapshot) (number : Nat) (signer : Address) : Bool :=
  snap.recents.any fun p =>
    p.2 == signer && decide (goSub64 number (snap.validators.length / 2 + 1) < p.1)

/-- `verifySeal` of the congress engine.  `recovered` is the result of
`ecrecover(header, c.signatures)` (`none` = recovery error); the snapshot
argument is the snapshot at the header's parent.  A nil `Difficulty`
would make the Go code panic in `Cmp`; here it is treated as a mismatch
(the claims only concern headers with a set difficulty). -/
def verifySeal (snap : Snapshot) (header : Header) (recovered : Option Address)
    (fakeDiff : Bool) : Except VErr Unit :=
  if header.number = 0 then .error .unknownBlock
  else
    match recovered with
    | none => .error .ecrecoverFailed
    | some signer =>
      if signer ≠ header.coinbase then .error .invalidCoinbase
      else if ¬ snap.validators.contains signer then .error .unauthorizedValidator
      else if recentlySignedCheck snap header.number signer then .error .recentlySigned
      else if fakeDiff = false ∧ snap.inturn header.number signer = true ∧
          header.difficulty ≠ some 2 then .error .wrongDifficulty
      else if fakeDiff = false ∧ snap.inturn header.number signer = false ∧
          header.difficulty ≠ some 1 then .error .wrongDifficulty
      else .ok ()

/-- The congress/chain configuration fields the claims touch:
`CongressConfig.Period`, `CongressConfig.Epoch`, and the RedCoast and
London fork heights of `params.ChainConfig` (nil = fork never active). -/
structure Config where
  period : Nat
  epoch : Nat
  redCoastBlock : Option Nat
  londonBlock : Option Nat
deriving DecidableEq

/-- Modelled from the spec: `ChainConfig.IsLondon` (params/config.go is
not under src/); a height-gated fork is active from its activation block
onward. -/
def Config.isLondon (c : Config) (number : Nat) : Bool :=
  match c.londonBlock with
  | none => false
  | some lb => lb ≤ number

/-- Modelled from the spec: `ChainConfig.IsRedCoast` (params/config.go is
not under src/); active from the RedCoast activation height onward. -/
def Config.isRedCoast (c : Config) (number : Nat) : Bool :=
  match c.redCoastBlock with
  | none => false
  | some rb => rb ≤ number

/-- Modelled from the spec: `misc.VerifyGaslimit` (not under src/), the
standard pre-EIP-1559 gas-limit rule of §4.1: the limit may move by less
than `parent/1024` per block and must stay at or above the 5000 minimum. -/
def verifyGaslimitOk (parentGasLimit headerGasLimit : Nat) : Bool :=
  (max parentGasLimit headerGasLimit - min parentGasLimit headerGasLimit
      < parentGasLimit / 1024) && (5000 ≤ headerGasLimit)

/-- The environment a single header verification runs in: the wall clock,
the parent-header lookup, the outcomes of the externally implemented
checks (`misc.VerifyForkHashes`, `misc.VerifyEip1559Header`), the
snapshot at the parent, the `ecrecover` result and the test-only
`fakeDiff` flag. -/
structure VEnv where
  now : Nat
  parent : Option Header
  forkHashesOk : Bool
  eip1559Ok : Bool
  snap : Option Snapshot
  recovered : Option Address
  fakeDiff : Bool

/-- The seal part shared by both branches at the end of
`verifyCascadingFields`: obtain the parent snapshot and run `verifySeal`. -/
def sealPart (env : VEnv) (header : Header) : Except VErr Unit :=
  match env.snap with
  | none => .error .snapshotFailed
  | some snap => verifySeal snap header env.recovered env.fakeDiff

/-- `verifyCascadingFields`: the header checks that depend on the parent
(ancestry, timestamp, gas accounting, EIP-1559 fields), ending in
`verifySeal`. -/
def verifyCascadingFields (c : Config) (env : VEnv) (header : Header) : Except VErr Unit :=
  if header.number = 0 then .ok ()
  else
    match env.parent with
    | none => .error .unknownAncestor
    | some parent =>
      if parent.number ≠ header.number - 1 ∨ parent.hashVal ≠ header.parentHash then
        .error .unknownAncestor
      else if header.time < parent.time + c.period then .error .invalidTimestamp
      else if header.gasLimit < header.gasUsed then .error .gasUsedExceeds
      else if c.isLondon header.number = false then
        if header.baseFee ≠ none then .error .baseFeeBeforeFork
        else if verifyGaslimitOk parent.gasLimit header.gasLimit = false then
          .error .gasLimitBound
        else sealPart env header
      else if env.eip1559Ok = false then .error .eip1559Invalid
      else sealPart env header

/-- `verifyHeader`: the standalone checks (future block, extra-data
layout, mix digest, uncle hash, difficulty presence, gas-limit cap, fork
hashes), then the cascading checks.  The Go guard for a nil `Number` is
not representable (`number` is total here). -/
def verifyHeader (c : Config) (env : VEnv) (header : Header) : Except VErr Unit :=
  if env.now < header.time then .error .futureBlock
  else if header.extra.length < extraVanity then .error .missingVanity
  else if header.extra.length < extraVanity + extraSeal then .error .missingSignature
  else if header.number % c.epoch ≠ 0 ∧
      header.extra.length - extraVanity - extraSeal ≠ 0 then .error .extraValidators
  else if header.number % c.epoch = 0 ∧
      (header.extra.length - extraVanity - extraSeal) % addressLength ≠ 0 then
    .error .extraValidators
  else if header.mixDigest ≠ 0 then .error .invalidMixDigest
  else if header.uncleHash ≠ uncleHashEmpty then .error .invalidUncleHash
  else if 0 < header.number ∧ header.difficulty = none then .error .invalidDifficulty
  else if 2 ^ 63 - 1 < header.gasLimit then .error .gasLimitTooHigh
  else if env.forkHashesOk = false then .error .forkHashMismatch
  else verifyCascadingFields c env header

/-- The errors `Finalize` / `FinalizeAndAssemble` can propagate, tagged by
the failing step (the Go code returns the callee's error value; in
`FinalizeAndAssemble` the pre-governance failures panic instead, which is
modelled as the same error outcome). -/
inductive FinalizeErr where
  | snapshotFailed
  | initFailed
  | punishFailed
  | rewardFailed
  | epochFailed
  | invalidExtraValidators
  | countFailed
  | proposalFetchFailed
  | replayFailed
  | finishFailed
  | invalidSysGovCount
deriving DecidableEq

/-- A recorded system-contract invocation.  `distributeReward` carries the
caller (the coinbase), the message value (the collected fee) and the
coinbase balance at the moment of the call, so ordering facts about the
balance transfer are visible in the trace. -/
inductive SysCall where
  | initContracts
  | punish (v : Address)
  | distributeReward (coinbase : Address) (fee : Nat) (coinbaseBalance : Nat)
  | epochUpdate (vals : List Address)
  | execProposal (idx : Nat) (id : Nat)
  | finishProposal (id : Nat)
deriving DecidableEq

/-- True exactly for the governance-replay events. -/
def isGovEvent : SysCall → Bool
  | .execProposal _ _ => true
  | .finishProposal _ => true
  | _ => false

/-- The mutable state `Finalize` works on: the account balances of the
`StateDB` and the trace of system-contract invocations made so far. -/
structure FState where
  balances : Address → Nat
  trace : List SysCall

/-- `state.AddBalance`. -/
def addBalance (b : Address → Nat) (a : Address) (v : Nat) : Address → Nat :=
  fun x => if x = a then b x + v else b x

/-- `state.SetBalance`. -/
def setBalance (b : Address → Nat) (a : Address) (v : Nat) : Address → Nat :=
  fun x => if x = a then v else b x

/-- The oracle for everything `Finalize` consumes from outside the
engine: the parent snapshot, and the outcomes of the system-contract
calls (`vmcaller.ExecuteMsg`).  `proposalCount` is the `uint32` result of
`getPassedProposalCount`; `propAt i` is the id of the passed proposal at
index `i` (`getPassedProposalByIndex`); `replayOk i` tells whether
replaying/executing the proposal at index `i` succeeds; `finishOk id`
whether `finishProposalById id` succeeds. -/
structure Env where
  snapResult : Option Snapshot
  initOk : Bool
  punishCallOk : Bool
  rewardCallOk : Bool
  epochResult : Option (List Address)
  proposalCount : Option Nat
  propAt : Nat → Option Nat
  replayOk : Nat → Bool
  finishOk : Nat → Bool

/-- Sequencing of finalize steps: stop at the first error, keeping the
state mutated so far (the Go `StateDB` is mutated in place). -/
def stepBind (r : FState × Option FinalizeErr) (f : FState → FState × Option FinalizeErr) :
    FState × Option FinalizeErr :=
  match r with
  | (st, some e) => (st, some e)
  | (st, none) => f st

/-- Big-endian 20-byte encoding of an address (`common.Address.Bytes`),
used for the epoch extra-data comparison. -/
def addrBytes20 (a : Address) : List Nat :=
  (List.range addressLength).map fun i => a / 256 ^ (addressLength - 1 - i) % 256

/-- Step 1 of `Finalize`: at block 1, `initializeSystemContracts`. -/
def initStep (env : Env) (header : Header) (st : FState) : FState × Option FinalizeErr :=
  if header.number = 1 then
    (⟨st.balances, st.trace ++ [SysCall.initContracts]⟩,
      if env.initOk then none else some .initFailed)
  else (st, none)

/-- `tryPunishValidator`: read the parent snapshot, compute
`validators[number % len(validators)]` and, unless that validator occurs
as a signer in `Recents`, invoke `punish` on the Punish contract. -/
def tryPunishValidator (env : Env) (number : Nat) (st : FState) : FState × Option FinalizeErr :=
  match env.snapResult with
  | none => (st, some .snapshotFailed)
  | some snap =>
    if (snap.recents.any fun p =>
        p.2 == snap.validators.getD (number % snap.validators.length) 0) = false then
      (⟨st.balances, st.trace ++
          [SysCall.punish (snap.validators.getD (number % snap.validators.length) 0)]⟩,
        if env.punishCallOk then none else some .punishFailed)
    else (st, none)

/-- Step 2 of `Finalize`: when the difficulty is not the in-turn value 2,
run `tryPunishValidator` (a nil difficulty would panic in Go `Cmp`; here
it takes the punish branch). -/
def punishStep (env : Env) (header : Header) (st : FState) : FState × Option FinalizeErr :=
  if header.difficulty = some 2 then (st, none)
  else tryPunishValidator env header.number st

/-- `trySendBlockReward`: if the fee-recorder account holds a positive
balance, add it to the coinbase, zero the fee recorder, then call
`distributeBlockReward` on the Validators contract with that value
(the balances at Go `big.Int` level are non-negative, so `Cmp ≤ 0` is
`= 0` on `Nat`). -/
def trySendBlockReward (env : Env) (coinbase : Address) (st : FState) :
    FState × Option FinalizeErr :=
  if st.balances FeeRecoder = 0 then (st, none)
  else
    (⟨setBalance (addBalance st.balances coinbase (st.balances FeeRecoder)) FeeRecoder 0,
        st.trace ++ [SysCall.distributeReward coinbase (st.balances FeeRecoder)
          (setBalance (addBalance st.balances coinbase (st.balances FeeRecoder)) FeeRecoder 0
            coinbase)]⟩,
      if env.rewardCallOk then none else some .rewardFailed)

/-- Step 3 of `Finalize`: send the block reward only when the block has at
least one (user) transaction. -/
def rewardStep (env : Env) (header : Header) (txsLen : Nat) (st : FState) :
    FState × Option FinalizeErr :=
  if 0 < txsLen then trySendBlockReward env header.coinbase st else (st, none)

/-- Step 4 of `Finalize`: at an epoch block run `doSomethingAtEpoch` and
require that the header's embedded validator bytes equal the serialised
fresh validator list, else `errInvalidExtraValidators`. -/
def epochStep (env : Env) (c : Config) (header : Header) (st : FState) :
    FState × Option FinalizeErr :=
  if header.number % c.epoch = 0 then
    match env.epochResult with
    | none => (st, some .epochFailed)
    | some newValidators =>
      if (header.extra.drop extraVanity).take (header.extra.length - extraSeal - extraVanity)
          ≠ newValidators.flatMap addrBytes20 then
        (⟨st.balances, st.trace ++ [SysCall.epochUpdate newValidators]⟩,
          some .invalidExtraValidators)
      else (⟨st.balances, st.trace ++ [SysCall.epochUpdate newValidators]⟩, none)
  else (st, none)

/-- Step 4 of `FinalizeAndAssemble`: at an epoch block run
`doSomethingAtEpoch`; the producer writes the list itself, so there is no
extra-data comparison. -/
def epochStepA (env : Env) (c : Config) (header : Header) (st : FState) :
    FState × Option FinalizeErr :=
  if header.number % c.epoch = 0 then
    match env.epochResult with
    | none => (st, some .epochFailed)
    | some newValidators =>
      (⟨st.balances, st.trace ++ [SysCall.epochUpdate newValidators]⟩, none)
  else (st, none)

/-- The first governance loop: for each index `i` below the passed count,
fetch the proposal by index and replay/execute it, collecting the
proposal ids in index order.  `fuel` is the number of indices left. -/
def execLoop (env : Env) (st : FState) (i : Nat) (fuel : Nat) (pIds : List Nat) :
    FState × List Nat × Option FinalizeErr :=
  match fuel with
  | 0 => (st, pIds, none)
  | fuel' + 1 =>
    match env.propAt i with
    | none => (st, pIds, some .proposalFetchFailed)
    | some pid =>
      if env.replayOk i then
        execLoop env ⟨st.balances, st.trace ++ [SysCall.execProposal i pid]⟩ (i + 1) fuel'
          (pIds ++ [pid])
      else (⟨st.balances, st.trace ++ [SysCall.execProposal i pid]⟩, pIds, some .replayFailed)

/-- The second governance loop: `finishProposalById` for each collected
id, in the collected order. -/
def finishLoop (env : Env) (st : FState) : List Nat → FState × Option FinalizeErr
  | [] => (st, none)
  | pid :: rest =>
    if env.finishOk pid then
      finishLoop env ⟨st.balances, st.trace ++ [SysCall.finishProposal pid]⟩ rest
    else (⟨st.balances, st.trace ++ [SysCall.finishProposal pid]⟩, some .finishFailed)

/-- Step 5 of `Finalize` (verification path): with RedCoast active, read
the passed-proposal count, require exactly that many system transactions
(`uint32(len(systemTxs))`, hence the `% 2 ^ 32`), then execute all passed
proposals in index order and afterwards finish them all in the same
order. -/
def govStep (env : Env) (c : Config) (header : Header) (sysTxsLen : Nat) (st : FState) :
    FState × Option FinalizeErr :=
  if c.isRedCoast header.number then
    match env.proposalCount with
    | none => (st, some .countFailed)
    | some count =>
      if count ≠ sysTxsLen % 2 ^ 32 then (st, some .invalidSysGovCount)
      else
        match execLoop env st 0 count [] with
        | (st', _, some e) => (st', some e)
        | (st', pIds, none) => finishLoop env st' pIds
  else (st, none)

/-- Step 5 of `FinalizeAndAssemble` (production path): gated additionally
on a configured `signTxFn`; no count comparison, since the producer
creates the system transactions itself. -/
def govStepA (env : Env) (c : Config) (header : Header) (signTxSet : Bool) (st : FState) :
    FState × Option FinalizeErr :=
  if signTxSet ∧ c.isRedCoast header.number = true then
    match env.proposalCount with
    | none => (st, some .countFailed)
    | some count =>
      match execLoop env st 0 count [] with
      | (st', _, some e) => (st', some e)
      | (st', pIds, none) => finishLoop env st' pIds
  else (st, none)

/-- `Finalize` up to (and including) the epoch step: everything that runs
before the governance section. -/
def preGov (env : Env) (c : Config) (header : Header) (txsLen : Nat) (st0 : FState) :
    FState × Option FinalizeErr :=
  stepBind (initStep env header st0) fun st1 =>
  stepBind (punishStep env header st1) fun st2 =>
  stepBind (rewardStep env header txsLen st2) fun st3 =>
  epochStep env c header st3

/-- `Finalize` of the congress engine, as the sequence of its effectful
steps (the trailing `header.Root`/`UncleHash` assignments mutate only the
header and are omitted).  `txsLen` is `len(*txs)` at entry, `sysTxsLen`
is `len(systemTxs)`. -/
def finalizeRun (env : Env) (c : Config) (header : Header) (txsLen sysTxsLen : Nat)
    (st0 : FState) : FState × Option FinalizeErr :=
  stepBind (preGov env c header txsLen st0) fun st4 =>
  govStep env c header sysTxsLen st4

/-- `FinalizeAndAssemble` up to (and including) its epoch step. -/
def preGovA (env : Env) (c : Config) (header : Header) (txsLen : Nat) (st0 : FState) :
    FState × Option FinalizeErr :=
  stepBind (initStep env header st0) fun st1 =>
  stepBind (punishStep env header st1) fun st2 =>
  stepBind (rewardStep env header txsLen st2) fun st3 =>
  epochStepA env c header st3

/-- `FinalizeAndAssemble` of the congress engine (block assembly itself
omitted; pre-governance failures panic in Go, modelled as the same error
outcome). -/
def finalizeAndAssembleRun (env : Env) (c : Config) (header : Header) (txsLen : Nat)
    (signTxSet : Bool) (st0 : FState) : FState × Option FinalizeErr :=
  stepBind (preGovA env c header txsLen st0) fun st4 =>
  govStepA env c header signTxSet st4

/-- `IsSysTransaction`: a transaction is a system transaction when its
sender is the block's coinbase and it targets `SysGovToAddr` with zero
gas price, or targets the governance contract itself; a recipient-less
(contract-creation) transaction never is.  The Go error result is always
nil, modelled by the always-`none` second component. -/
def IsSysTransaction (sender : Address) (tx : Tx) (header : Header) : Bool × Option Unit :=
  match tx.toAddr with
  | none => (false, none)
  | some t =>
    if sender = header.coinbase ∧ t = SysGovToAddr ∧ tx.gasPrice = 0 then (true, none)
    else if sender = header.coinbase ∧ t = SysGovContractAddr then (true, none)
    else (false, none)

/-- `blacklistDirection` of the congress package. -/
inductive BlacklistDirection where
  | DirectionFrom
  | DirectionTo
  | DirectionBoth
deriving DecidableEq

/-- The errors `ValidateTx` can return: the propagated `getBlacklist`
failure or `types.ErrAddressDenied`. -/
inductive TxError where
  | blacklistFetchFailed
  | addressDenied
deriving DecidableEq

/-- `ValidateTx`: only strictly after the RedCoast activation height
(`RedCoastBlock.Cmp(header.Number) < 0`) is the blacklist consulted; a
sender hit with direction other than `DirectionTo`, or a recipient hit
with direction other than `DirectionFrom`, denies the transaction.
`blacklist` is the result of `c.getBlacklist` (`none` = error). -/
def ValidateTx (redCoastBlock : Option Nat)
    (blacklist : Option (Address → Option BlacklistDirection))
    (sender : Address) (tx : Tx) (headerNumber : Nat) : Option TxError :=
  match redCoastBlock with
  | none => none
  | some rb =>
    if rb < headerNumber then
      match blacklist with
      | none => some .blacklistFetchFailed
      | some m =>
        let senderHit : Bool :=
          match m sender with
          | some d => d ≠ BlacklistDirection.DirectionTo
          | none => false
        if senderHit then some .addressDenied
        else
          match tx.toAddr with
          | some t =>
            match m t with
            | some d =>
              if d ≠ BlacklistDirection.DirectionFrom then some .addressDenied else none
            | none => none
          | none => none
    else none

/-- Modelled from the spec: the `Recents` update of `Snapshot.apply`
(snapshot.go is not under src/).  Per §4.2, applying a header at `number`
records its signer in `Recents` and evicts the entry that falls out of
the `len(Validators)/2 + 1` window (`delete(Recents, number-limit)` when
`number ≥ limit`); map-key uniqueness is kept by filtering the new key. -/
def applyRecents (validatorCount : Nat) (recents : List (Nat × Address)) (number : Nat)
    (signer : Address) : List (Nat × Address) :=
  let limit := validatorCount / 2 + 1
  let pruned := if limit ≤ number then recents.filter (fun p => p.1 ≠ number - limit)
                else recents
  (number, signer) :: pruned.filter (fun p => p.1 ≠ number)

/-- A run of consecutive blocks each accepted by `verifySeal` against the
snapshot of its parent, the snapshot `Recents` evolving by
`applyRecents`: `ChainAccepted vals recents n signers` states that blocks
`n, n+1, …` signed by `signers` are all accepted starting from a
snapshot with validator list `vals` and recent-signer map `recents`. -/
inductive ChainAccepted (vals : List Address) :
    List (Nat × Address) → Nat → List Address → Prop where
  | nil : ∀ recents n, ChainAccepted vals recents n []
  | cons : ∀ recents n signer rest (header : Header),
      header.number = n →
      verifySeal ⟨n, vals, recents⟩ header (some signer) false = .ok () →
      ChainAccepted vals (applyRecents vals.length recents n signer) (n + 1) rest →
      ChainAccepted vals recents n (signer :: rest)

/-! Concrete fixtures used by the witness and counterexample theorems. -/

/-- A two-validator snapshot with no recent signers. -/
def snapC1w : Snapshot := ⟨0, [5, 9], []⟩

/-- A block-1 header whose coinbase 7 differs from the recovered signer 5. -/
def hdrC1w : Header := ⟨1, 50, 7, some 2, 0, 0, [], 0, uncleHashEmpty, 0, 0, none⟩

/-- Genesis-like parent header for the timestamp fixtures. -/
def parC2 : Header := ⟨0, 100, 0, none, 0, 77, [], 0, uncleHashEmpty, 8000000, 0, none⟩

/-- A block-1 header with `time = parent.time + period` (100 + 3). -/
def hdrC2 : Header := ⟨1, 103, 5, some 2, 77, 0, [], 0, uncleHashEmpty, 8000000, 0, none⟩

/-- Config with period 3, epoch 300, no forks. -/
def cfgC2 : Config := ⟨3, 300, none, none⟩

/-- Verification environment for the timestamp fixtures: parent present,
single validator 5, signer 5 recovered. -/
def envC2 : VEnv := ⟨1000, some parC2, true, true, some ⟨0, [5], []⟩, some 5, false⟩

/-- Four validators; the recently-signed window is `4/2 + 1 = 3`. -/
def vals4 : List Address := [10, 11, 12, 13]

/-- Block 1 signed by validator 11 (in turn, difficulty 2). -/
def hdrB1 : Header := ⟨1, 50, 11, some 2, 0, 0, [], 0, uncleHashEmpty, 0, 0, none⟩

/-- Block 2 signed again by validator 11 (out of turn, difficulty 1). -/
def hdrB2 : Header := ⟨2, 53, 11, some 1, 0, 0, [], 0, uncleHashEmpty, 0, 0, none⟩

/-- Two validators; the recently-signed window is `2/2 + 1 = 2`. -/
def vals2 : List Address := [10, 11]

/-- Block 1 signed by validator 10 (out of turn, difficulty 1). -/
def hdrD1 : Header := ⟨1, 50, 10, some 1, 0, 0, [], 0, uncleHashEmpty, 0, 0, none⟩

/-- Block 2 signed by validator 11 (out of turn, difficulty 1). -/
def hdrD2 : Header := ⟨2, 53, 11, some 1, 0, 0, [], 0, uncleHashEmpty, 0, 0, none⟩

/-- Block 2 header with coinbase 10, for the step half of the window
theorem: validator 10 signed block 1 and tries again at block 2. -/
def hdrE : Header := ⟨2, 53, 10, some 2, 0, 0, [], 0, uncleHashEmpty, 0, 0, none⟩

/-- Config with period 3, epoch 300 and the RedCoast fork at height 2. -/
def cfgW : Config := ⟨3, 300, some 2, none⟩

/-- Finalize oracle: three validators (in turn at block 5 is index
`5 % 3 = 2`, validator 12), empty recents, two passed proposals with ids
7 and 3, every contract call succeeding. -/
def envW : Env :=
  ⟨some ⟨4, [10, 11, 12], []⟩, true, true, true, some [],
    some 2, (fun i => if i = 0 then some 7 else if i = 1 then some 3 else none),
    (fun _ => true), (fun _ => true)⟩

/-- An out-of-turn block-5 header with coinbase 20. -/
def hdrW : Header := ⟨5, 115, 20, some 1, 0, 0, [], 0, uncleHashEmpty, 0, 0, none⟩

/-- Initial finalize state: the fee recorder holds 50 wei, the coinbase 7. -/
def stW : FState :=
  ⟨fun a => if a = FeeRecoder then 50 else if a = 20 then 7 else 0, []⟩

/-- Config with epoch 100 for the extra-data fixtures. -/
def cfgC8 : Config := ⟨3, 100, none, none⟩

/-- Minimal verification environment for the extra-data fixtures. -/
def envC8 : VEnv := ⟨1000, none, true, true, none, none, false⟩

/-- An epoch header (number 100) with 10 validator bytes between vanity
and seal — not a multiple of 20. -/
def hdrC8e : Header :=
  ⟨100, 500, 0, some 2, 0, 0, List.replicate 107 0, 0, uncleHashEmpty, 0, 0, none⟩

/-- A non-epoch header with extra-data of exactly 32 + 65 bytes. -/
def hdrC8n : Header :=
  ⟨101, 500, 0, some 2, 0, 0, List.replicate 97 0, 0, uncleHashEmpty, 0, 0, none⟩

/-- A blacklist marking address 33 as denied in the `From` direction. -/
def blC10 : Option (Address → Option BlacklistDirection) :=
  some fun a => if a = 33 then some BlacklistDirection.DirectionFrom else none

/-! Helper lemmas. -/

/-- For in-range operands, Go `uint64` subtraction agrees with truncated
`Nat` subtraction. -/
theorem goSub64_eq_sub {a b : Nat} (hb : b ≤ a) (ha : a < 2 ^ 64) : goSub64 a b = a - b := by
  have h64 : (2 : Nat) ^ 64 = 18446744073709551616 := by norm_num
  unfold goSub64
  rw [h64]
  omega

/-- Full characterization of seal acceptance for a successfully recovered
signer. -/
theorem verifySeal_ok_iff (snap : Snapshot) (header : Header) (s : Address) :
    verifySeal snap header (some s) false = .ok () ↔
      header.number ≠ 0 ∧ s = header.coinbase ∧ s ∈ snap.validators ∧
      recentlySignedCheck snap header.number s = false ∧
      header.difficulty = some (if snap.inturn header.number s then 2 else 1) := by
  unfold verifySeal
  by_cases h1 : header.number = 0
  · simp [h1]
  · by_cases h2 : s = header.coinbase
    · subst h2
      by_cases h3 : header.coinbase ∈ snap.validators
      · by_cases h4 : recentlySignedCheck snap header.number header.coinbase
        · simp [h1, h3, h4]
        · cases h5 : snap.inturn header.number header.coinbase <;>
            by_cases h6 : header.difficulty = some 2 <;>
            by_cases h7 : header.difficulty = some 1 <;>
            simp_all
      · simp [h1, h3]
    · simp [h1, h2]

/-- C1: a header accepted by verifySeal has its recovered signer equal to
the coinbase, the signer authorized, and the difficulty matching its
turn-ness; violations fail with invalid-coinbase, unauthorized-validator
and wrong-difficulty respectively (each given that the checks ordered
before it pass). -/
theorem verifySeal_authorization (snap : Snapshot) (header : Header) (rec : Option Address) :
    (verifySeal snap header rec false = .ok () →
      ∃ s, rec = some s ∧ s = header.coinbase ∧ s ∈ snap.validators ∧
        header.difficulty = some (if snap.inturn header.number s then 2 else 1)) ∧
    (∀ s, rec = some s → header.number ≠ 0 → s ≠ header.coinbase →
      verifySeal snap header rec false = .error .invalidCoinbase) ∧
    (∀ s, rec = some s → header.number ≠ 0 → s = header.coinbase → s ∉ snap.validators →
      verifySeal snap header rec false = .error .unauthorizedValidator) ∧
    (∀ s, rec = some s → header.number ≠ 0 → s = header.coinbase → s ∈ snap.validators →
      recentlySignedCheck snap header.number s = false →
      header.difficulty ≠ some (if snap.inturn header.number s then 2 else 1) →
      verifySeal snap header rec false = .error .wrongDifficulty) := by
  refine ⟨?_, ?_, ?_, ?_⟩
  · intro h
    match rec with
    | none =>
      exfalso
      unfold verifySeal at h
      by_cases h0 : header.number = 0 <;> simp [h0] at h
    | some s =>
      have hs := (verifySeal_ok_iff snap header s).mp h
      exact ⟨s, rfl, hs.2.1, hs.2.2.1, hs.2.2.2.2⟩
  · intro s hrec hn hne
    subst hrec
    unfold verifySeal
    simp [hn, hne]
  · intro s hrec hn hcb hmem
    subst hrec
    subst hcb
    unfold verifySeal
    simp [hn, hmem]
  · intro s hrec hn hcb hmem hrc hdiff
    subst hrec
    subst hcb
    unfold verifySeal
    cases hin : snap.inturn header.number header.coinbase <;>
      simp_all [hn, hmem, hrc, hin]

/-- Witness for C1: at block 1 with validators `[5, 9]`, a header whose
coinbase is 7 but whose recovered signer is 5 fails with the
invalid-coinbase error. -/
theorem verifySeal_authorization_witness :
    verifySeal snapC1w hdrC1w (some 5) false = .error .invalidCoinbase :=
  (verifySeal_authorization snapC1w hdrC1w (some 5)).2.1 5 rfl (by decide) (by decide)

/-- C9: a recipient-less (contract-creation) transaction is never a
system transaction, and the error result is nil, for any sender and
header. -/
theorem isSysTransaction_contract_creation (sender : Address) (tx : Tx) (header : Header)
    (h : tx.toAddr = none) : IsSysTransaction sender tx header = (false, none) := by
  unfold IsSysTransaction
  rw [h]

/-- Witness for C9: a zero-gas-price creation transaction sent by the
coinbase itself is still not a system transaction. -/
theorem isSysTransaction_contract_creation_witness :
    IsSysTransaction hdrC1w.coinbase ⟨none, 0⟩ hdrC1w = (false, none) :=
  isSysTransaction_contract_creation hdrC1w.coinbase ⟨none, 0⟩ hdrC1w rfl

/-- C10: with the RedCoast fork unset, or at any height up to and
including the activation height, ValidateTx accepts every transaction. -/
theorem validateTx_preRedCoast (redCoastBlock : Option Nat)
    (blacklist : Option (Address → Option BlacklistDirection))
    (sender : Address) (tx : Tx) (headerNumber : Nat)
    (h : redCoastBlock = none ∨ ∃ rb, redCoastBlock = some rb ∧ headerNumber ≤ rb) :
    ValidateTx redCoastBlock blacklist sender tx headerNumber = none := by
  rcases h with h | ⟨rb, hrb, hle⟩
  · simp [ValidateTx, h]
  · subst hrb
    simp only [ValidateTx]
    rw [if_neg (by omega)]

/-- Witness for C10: at the activation block itself (height 10 with
RedCoast at 10), a transaction from the From-blacklisted address 33 is
still accepted. -/
theorem validateTx_preRedCoast_witness :
    ValidateTx (some 10) blC10 33 ⟨some 44, 1⟩ 10 = none :=
  validateTx_preRedCoast (some 10) blC10 33 ⟨some 44, 1⟩ 10 (Or.inr ⟨10, rfl, le_refl 10⟩)

/-- verifySeal only ever produces the six seal-stage errors. -/
theorem verifySeal_err_mem (snap : Snapshot) (header : Header) (rec : Option Address)
    (fd : Bool) (e : VErr) (h : verifySeal snap header rec fd = .error e) :
    e ∈ [VErr.unknownBlock, VErr.ecrecoverFailed, VErr.invalidCoinbase,
      VErr.unauthorizedValidator, VErr.recentlySigned, VErr.wrongDifficulty] := by
  unfold verifySeal at h
  repeat' split at h
  all_goals simp_all

/-- sealPart only produces the snapshot-retrieval failure or a seal error. -/
theorem sealPart_err_mem (env : VEnv) (header : Header) (e : VErr)
    (h : sealPart env header = .error e) :
    e ∈ [VErr.snapshotFailed, VErr.unknownBlock, VErr.ecrecoverFailed, VErr.invalidCoinbase,
      VErr.unauthorizedValidator, VErr.recentlySigned, VErr.wrongDifficulty] := by
  unfold sealPart at h
  split at h
  · simp_all
  · have := verifySeal_err_mem _ _ _ _ _ h
    simp_all

/-- C2 (amended): with a valid parent in scope, the cascading checks fail
with the invalid-timestamp error exactly when the header's time is
strictly below parent.time + period; in particular a timestamp equal to
parent.time + period is accepted by the timestamp check. -/
theorem verifyCascadingFields_timestamp (c : Config) (env : VEnv) (header parent : Header)
    (hp : env.parent = some parent) (hn : header.number ≠ 0)
    (hpn : parent.number = header.number - 1) (hph : parent.hashVal = header.parentHash) :
    (verifyCascadingFields c env header = .error .invalidTimestamp ↔
      header.time < parent.time + c.period) ∧
    (header.time = parent.time + c.period →
      verifyCascadingFields c env header ≠ .error .invalidTimestamp) := by
  have hchar : verifyCascadingFields c env header = .error .invalidTimestamp ↔
      header.time < parent.time + c.period := by
    unfold verifyCascadingFields
    rw [if_neg hn]
    simp only [hp]
    rw [if_neg (by simp [hpn, hph])]
    by_cases ht : header.time < parent.time + c.period
    · simp [ht]
    · rw [if_neg ht]
      constructor
      · intro h
        exfalso
        repeat' split at h
        all_goals
          first
            | (have hm := sealPart_err_mem env header _ h; simp_all)
            | simp_all
      · intro hcontra
        exact absurd hcontra ht
  refine ⟨hchar, fun he hcontra => ?_⟩
  have := hchar.mp hcontra
  omega

/-- Counterexample to C2 as stated: a header whose timestamp equals
parent.time + period (103 = 100 + 3) is fully accepted by the cascading
checks, not rejected with the invalid-timestamp error. -/
theorem timestamp_equality_accepted :
    hdrC2.time = parC2.time + cfgC2.period ∧ envC2.parent = some parC2 ∧
    verifyCascadingFields cfgC2 envC2 hdrC2 = .ok () :=
  ⟨rfl, rfl, rfl⟩

/-- Witness for C2 (amended) at concrete inputs: timestamp equal to
parent.time + period does not trigger the invalid-timestamp error. -/
theorem verifyCascadingFields_timestamp_witness :
    verifyCascadingFields cfgC2 envC2 hdrC2 ≠ .error .invalidTimestamp :=
  (verifyCascadingFields_timestamp cfgC2 envC2 hdrC2 parC2 rfl (by decide) rfl rfl).2 rfl

/-- verifyCascadingFields only produces ancestry, timestamp, gas,
EIP-1559 or seal-stage errors. -/
theorem verifyCascadingFields_err_mem (c : Config) (env : VEnv) (header : Header) (e : VErr)
    (h : verifyCascadingFields c env header = .error e) :
    e ∈ [VErr.unknownAncestor, VErr.invalidTimestamp, VErr.gasUsedExceeds,
      VErr.baseFeeBeforeFork, VErr.gasLimitBound, VErr.eip1559Invalid, VErr.snapshotFailed,
      VErr.unknownBlock, VErr.ecrecoverFailed, VErr.invalidCoinbase,
      VErr.unauthorizedValidator, VErr.recentlySigned, VErr.wrongDifficulty] := by
  unfold verifyCascadingFields at h
  repeat' split at h
  all_goals first
    | (have hm := sealPart_err_mem env header _ h; simp_all)
    | simp_all

/-- C8: for a header carrying at least the 32-byte vanity and 65-byte
seal and not timestamped in the future, verifyHeader yields the
extra-validators error exactly when a non-epoch header carries any bytes
between vanity and seal, or an epoch header carries a validator section
not divisible by 20; in particular extra-data of exactly 97 bytes on a
non-epoch header passes this check. -/
theorem verifyHeader_extraValidators (c : Config) (env : VEnv) (header : Header)
    (hlen : 97 ≤ header.extra.length) (htime : header.time ≤ env.now) :
    (verifyHeader c env header = .error .extraValidators ↔
      ((header.number % c.epoch ≠ 0 ∧ 97 < header.extra.length) ∨
       (header.number % c.epoch = 0 ∧ ¬ (20 ∣ header.extra.length - 97)))) ∧
    (header.number % c.epoch ≠ 0 → header.extra.length = 97 →
      verifyHeader c env header ≠ .error .extraValidators) := by
  have hmain : verifyHeader c env header = .error .extraValidators ↔
      ((header.number % c.epoch ≠ 0 ∧ 97 < header.extra.length) ∨
       (header.number % c.epoch = 0 ∧ ¬ (20 ∣ header.extra.length - 97))) := by
    simp only [verifyHeader, extraVanity, extraSeal, addressLength]
    rw [if_neg (by omega), if_neg (by omega), if_neg (by omega)]
    by_cases hE : header.number % c.epoch = 0
    · rw [if_neg (by simp [hE])]
      by_cases hm : (header.extra.length - 32 - 65) % 20 = 0
      · rw [if_neg (by simp [hm])]
        constructor
        · intro h
          exfalso
          repeat' split at h
          all_goals first
            | (have hmm := verifyCascadingFields_err_mem c env header _ h; simp_all)
            | simp_all
        · intro hrhs
          exfalso
          rcases hrhs with ⟨hne, _⟩ | ⟨_, hnd⟩
          · exact hne hE
          · exact hnd (by omega)
      · rw [if_pos ⟨hE, hm⟩]
        exact ⟨fun _ => Or.inr ⟨hE, fun hd => hm (by omega)⟩, fun _ => rfl⟩
    · by_cases hz : header.extra.length - 32 - 65 = 0
      · rw [if_neg (by simp [hz]), if_neg (by simp [hE])]
        constructor
        · intro h
          exfalso
          repeat' split at h
          all_goals first
            | (have hmm := verifyCascadingFields_err_mem c env header _ h; simp_all)
            | simp_all
        · intro hrhs
          exfalso
          rcases hrhs with ⟨_, hgt⟩ | ⟨heq, _⟩
          · omega
          · exact hE heq
      · rw [if_pos ⟨hE, hz⟩]
        exact ⟨fun _ => Or.inl ⟨hE, by omega⟩, fun _ => rfl⟩
  refine ⟨hmain, fun hne h97 hcontra => ?_⟩
  rcases hmain.mp hcontra with ⟨_, hgt⟩ | ⟨heq, _⟩
  · omega
  · exact hne heq

/-- Witness for C8: an epoch header (number 100, epoch 100) with ten
validator bytes is rejected with the extra-validators error, and a
non-epoch 97-byte header passes the check. -/
theorem verifyHeader_extraValidators_witness :
    verifyHeader cfgC8 envC8 hdrC8e = .error .extraValidators ∧
    verifyHeader cfgC8 envC8 hdrC8n ≠ .error .extraValidators :=
  ⟨((verifyHeader_extraValidators cfgC8 envC8 hdrC8e (by decide) (by decide)).1).mpr
      (Or.inr (by decide)),
   (verifyHeader_extraValidators cfgC8 envC8 hdrC8n (by decide) (by decide)).2
      (by decide) (by decide)⟩

/-- Inversion of a successful stepBind. -/
theorem stepBind_ok (r : FState × Option FinalizeErr) (f : FState → FState × Option FinalizeErr)
    (st : FState) (h : stepBind r f = (st, none)) :
    ∃ stm, r = (stm, none) ∧ f stm = (st, none) := by
  rcases r with ⟨stm, e⟩
  cases e with
  | none => exact ⟨stm, rfl, h⟩
  | some e' => simp [stepBind] at h

/-- The init step keeps balances and appends only the init event. -/
theorem initStep_char (env : Env) (header : Header) (st : FState) :
    ((initStep env header st).1).balances = st.balances ∧
    ∃ t, ((initStep env header st).1).trace = st.trace ++ t ∧
      ∀ e ∈ t, e = SysCall.initContracts := by
  unfold initStep
  split
  · exact ⟨rfl, ⟨[SysCall.initContracts], rfl, by simp⟩⟩
  · exact ⟨rfl, ⟨[], by simp, by simp⟩⟩

/-- The punish step keeps balances and appends only punish events. -/
theorem punishStep_char (env : Env) (header : Header) (st : FState) :
    ((punishStep env header st).1).balances = st.balances ∧
    ∃ t, ((punishStep env header st).1).trace = st.trace ++ t ∧
      ∀ e ∈ t, ∃ v, e = SysCall.punish v := by
  unfold punishStep tryPunishValidator
  split
  · exact ⟨rfl, ⟨[], by simp, by simp⟩⟩
  · split
    · exact ⟨rfl, ⟨[], by simp, by simp⟩⟩
    · split
      · exact ⟨rfl, ⟨[SysCall.punish _], rfl, by simp⟩⟩
      · exact ⟨rfl, ⟨[], by simp, by simp⟩⟩

/-- The reward step appends only reward-distribution events. -/
theorem rewardStep_char (env : Env) (header : Header) (txsLen : Nat) (st : FState) :
    ∃ t, ((rewardStep env header txsLen st).1).trace = st.trace ++ t ∧
      ∀ e ∈ t, ∃ cb f b, e = SysCall.distributeReward cb f b := by
  unfold rewardStep trySendBlockReward
  split
  · split
    · exact ⟨[], by simp, by simp⟩
    · exact ⟨[SysCall.distributeReward _ _ _], rfl, by simp⟩
  · exact ⟨[], by simp, by simp⟩

/-- The epoch step keeps balances and appends only epoch-update events. -/
theorem epochStep_char (env : Env) (c : Config) (header : Header) (st : FState) :
    ((epochStep env c header st).1).balances = st.balances ∧
    ∃ t, ((epochStep env c header st).1).trace = st.trace ++ t ∧
      ∀ e ∈ t, ∃ v, e = SysCall.epochUpdate v := by
  unfold epochStep
  split
  · split
    · exact ⟨rfl, ⟨[], by simp, by simp⟩⟩
    · split
      · exact ⟨rfl, ⟨[SysCall.epochUpdate _], rfl, by simp⟩⟩
      · exact ⟨rfl, ⟨[SysCall.epochUpdate _], rfl, by simp⟩⟩
  · exact ⟨rfl, ⟨[], by simp, by simp⟩⟩

/-- The producer epoch step keeps balances and appends only epoch-update
events. -/
theorem epochStepA_char (env : Env) (c : Config) (header : Header) (st : FState) :
    ((epochStepA env c header st).1).balances = st.balances ∧
    ∃ t, ((epochStepA env c header st).1).trace = st.trace ++ t ∧
      ∀ e ∈ t, ∃ v, e = SysCall.epochUpdate v := by
  unfold epochStepA
  split
  · split
    · exact ⟨rfl, ⟨[], by simp, by simp⟩⟩
    · exact ⟨rfl, ⟨[SysCall.epochUpdate _], rfl, by simp⟩⟩
  · exact ⟨rfl, ⟨[], by simp, by simp⟩⟩

/-- A successful execution loop keeps balances, fetches exactly the ids
of the proposals at indices i, i+1, … and appends the matching execution
events in ascending index order. -/
theorem execLoop_ok (env : Env) :
    ∀ (fuel i : Nat) (st : FState) (acc : List Nat) (st' : FState) (ids : List Nat),
      execLoop env st i fuel acc = (st', ids, none) →
      st'.balances = st.balances ∧
      ∃ newIds, ids = acc ++ newIds ∧ newIds.length = fuel ∧
        (∀ k, k < fuel → env.propAt (i + k) = some (newIds.getD k 0)) ∧
        st'.trace = st.trace ++
          (List.range fuel).map (fun k => SysCall.execProposal (i + k) (newIds.getD k 0)) := by
  intro fuel
  induction fuel with
  | zero =>
    intro i st acc st' ids h
    simp only [execLoop, Prod.mk.injEq] at h
    obtain ⟨rfl, rfl, -⟩ := h
    exact ⟨rfl, ⟨[], by simp, rfl, by simp, by simp⟩⟩
  | succ fuel' ih =>
    intro i st acc st' ids h
    simp only [execLoop] at h
    cases hp : env.propAt i with
    | none => rw [hp] at h; simp at h
    | some pid =>
      rw [hp] at h
      simp only [] at h
      cases hr : env.replayOk i with
      | false => rw [hr] at h; simp at h
      | true =>
        rw [hr] at h
        simp only [if_true] at h
        obtain ⟨hbal, newIds', hids, hlen, hprop, htr⟩ := ih (i + 1) _ (acc ++ [pid]) st' ids h
        refine ⟨hbal, pid :: newIds', by simp [hids], by simp [hlen], ?_, ?_⟩
        · intro k hk
          cases k with
          | zero => simpa using hp
          | succ k' =>
            have h2 := hprop k' (by omega)
            rw [show i + (k' + 1) = i + 1 + k' by omega]
            simpa using h2
        · rw [htr, List.range_succ_eq_map, List.map_cons, List.map_map]
          have hfun : ((fun k => SysCall.execProposal (i + k) ((pid :: newIds').getD k 0)) ∘
              Nat.succ) = fun k => SysCall.execProposal (i + 1 + k) (newIds'.getD k 0) := by
            funext k
            simp only [Function.comp_apply, List.getD_cons_succ]
            rw [show i + Nat.succ k = i + 1 + k by omega]
          rw [hfun]
          simp

/-- A successful finish loop keeps balances and appends exactly the
finish events of the collected ids, in order. -/
theorem finishLoop_ok (env : Env) :
    ∀ (ids : List Nat) (st st' : FState), finishLoop env st ids = (st', none) →
      st'.balances = st.balances ∧
      st'.trace = st.trace ++ ids.map SysCall.finishProposal := by
  intro ids
  induction ids with
  | nil =>
    intro st st' h
    simp only [finishLoop, Prod.mk.injEq] at h
    obtain ⟨rfl, -⟩ := h
    exact ⟨rfl, by simp⟩
  | cons pid rest ih =>
    intro st st' h
    simp only [finishLoop] at h
    cases he : env.finishOk pid with
    | false => rw [he] at h; simp at h
    | true =>
      rw [he] at h
      simp only [if_true] at h
      obtain ⟨hbal, htr⟩ := ih _ st' h
      exact ⟨hbal, by rw [htr]; simp⟩

/-- The execution loop only fails with proposal-fetch or replay errors. -/
theorem execLoop_err (env : Env) :
    ∀ (fuel i : Nat) (st : FState) (acc : List Nat) (st' : FState) (ids : List Nat)
      (e : FinalizeErr), execLoop env st i fuel acc = (st', ids, some e) →
      e = .proposalFetchFailed ∨ e = .replayFailed := by
  intro fuel
  induction fuel with
  | zero =>
    intro i st acc st' ids e h
    simp [execLoop] at h
  | succ fuel' ih =>
    intro i st acc st' ids e h
    simp only [execLoop] at h
    cases hp : env.propAt i with
    | none => rw [hp] at h; simp at h; tauto
    | some pid =>
      rw [hp] at h
      simp only [] at h
      cases hr : env.replayOk i with
      | false => rw [hr] at h; simp at h; tauto
      | true =>
        rw [hr] at h
        simp only [if_true] at h
        exact ih (i + 1) _ (acc ++ [pid]) st' ids e h

/-- The finish loop only fails with the finish error. -/
theorem finishLoop_err (env : Env) :
    ∀ (ids : List Nat) (st st' : FState) (e : FinalizeErr),
      finishLoop env st ids = (st', some e) → e = .finishFailed := by
  intro ids
  induction ids with
  | nil =>
    intro st st' e h
    simp [finishLoop] at h
  | cons pid rest ih =>
    intro st st' e h
    simp only [finishLoop] at h
    cases he : env.finishOk pid with
    | false => rw [he] at h; simp at h; tauto
    | true =>
      rw [he] at h
      simp only [if_true] at h
      exact ih _ st' e h

/-- The pre-governance part of Finalize appends no governance events. -/
theorem preGov_trace (env : Env) (c : Config) (header : Header) (txsLen : Nat)
    (st0 st4 : FState) (h : preGov env c header txsLen st0 = (st4, none)) :
    ∃ t, st4.trace = st0.trace ++ t ∧ ∀ e ∈ t, isGovEvent e = false := by
  unfold preGov at h
  obtain ⟨st1, h1, h⟩ := stepBind_ok _ _ _ h
  obtain ⟨st2, h2, h⟩ := stepBind_ok _ _ _ h
  obtain ⟨st3, h3, h4⟩ := stepBind_ok _ _ _ h
  obtain ⟨-, t1, ht1, he1⟩ := initStep_char env header st0
  obtain ⟨-, t2, ht2, he2⟩ := punishStep_char env header st1
  obtain ⟨t3, ht3, he3⟩ := rewardStep_char env header txsLen st2
  obtain ⟨-, t4, ht4, he4⟩ := epochStep_char env c header st3
  rw [h1] at ht1
  rw [h2] at ht2
  rw [h3] at ht3
  rw [h4] at ht4
  refine ⟨t1 ++ t2 ++ t3 ++ t4, ?_, ?_⟩
  · rw [ht4, ht3, ht2, ht1]
    simp [List.append_assoc]
  · intro e he
    simp only [List.mem_append] at he
    rcases he with ((he | he) | he) | he
    · rw [he1 e he]; rfl
    · obtain ⟨v, rfl⟩ := he2 e he; rfl
    · obtain ⟨cb, f, b, rfl⟩ := he3 e he; rfl
    · obtain ⟨v, rfl⟩ := he4 e he; rfl

/-- The pre-governance part of FinalizeAndAssemble appends no governance
events. -/
theorem preGovA_trace (env : Env) (c : Config) (header : Header) (txsLen : Nat)
    (st0 st4 : FState) (h : preGovA env c header txsLen st0 = (st4, none)) :
    ∃ t, st4.trace = st0.trace ++ t ∧ ∀ e ∈ t, isGovEvent e = false := by
  unfold preGovA at h
  obtain ⟨st1, h1, h⟩ := stepBind_ok _ _ _ h
  obtain ⟨st2, h2, h⟩ := stepBind_ok _ _ _ h
  obtain ⟨st3, h3, h4⟩ := stepBind_ok _ _ _ h
  obtain ⟨-, t1, ht1, he1⟩ := initStep_char env header st0
  obtain ⟨-, t2, ht2, he2⟩ := punishStep_char env header st1
  obtain ⟨t3, ht3, he3⟩ := rewardStep_char env header txsLen st2
  obtain ⟨-, t4, ht4, he4⟩ := epochStepA_char env c header st3
  rw [h1] at ht1
  rw [h2] at ht2
  rw [h3] at ht3
  rw [h4] at ht4
  refine ⟨t1 ++ t2 ++ t3 ++ t4, ?_, ?_⟩
  · rw [ht4, ht3, ht2, ht1]
    simp [List.append_assoc]
  · intro e he
    simp only [List.mem_append] at he
    rcases he with ((he | he) | he) | he
    · rw [he1 e he]; rfl
    · obtain ⟨v, rfl⟩ := he2 e he; rfl
    · obtain ⟨cb, f, b, rfl⟩ := he3 e he; rfl
    · obtain ⟨v, rfl⟩ := he4 e he; rfl

/-- A successful governance step keeps balances and appends only
governance events. -/
theorem govStep_ok_char (env : Env) (c : Config) (header : Header) (sysTxsLen : Nat)
    (st st' : FState) (h : govStep env c header sysTxsLen st = (st', none)) :
    st'.balances = st.balances ∧
    ∃ t, st'.trace = st.trace ++ t ∧ ∀ e ∈ t, isGovEvent e = true := by
  unfold govStep at h
  split at h
  · cases hc : env.proposalCount with
    | none => rw [hc] at h; simp at h
    | some count =>
      rw [hc] at h
      simp only [] at h
      split at h
      · simp at h
      · split at h
        · simp at h
        · rename_i stG pIds heq
          obtain ⟨hbalE, newIds, hids, hlen, hprop, htrE⟩ :=
            execLoop_ok env count 0 st [] stG pIds heq
          obtain ⟨hbalF, htrF⟩ := finishLoop_ok env pIds stG st' h
          refine ⟨by rw [hbalF, hbalE], ?_⟩
          refine ⟨(List.range count).map
              (fun k => SysCall.execProposal (0 + k) (newIds.getD k 0)) ++
              pIds.map SysCall.finishProposal, ?_, ?_⟩
          · rw [htrF, htrE]
            simp [List.append_assoc]
          · intro e he
            simp only [List.mem_append, List.mem_map] at he
            rcases he with ⟨k, -, rfl⟩ | ⟨pid, -, rfl⟩ <;> rfl
  · simp only [Prod.mk.injEq] at h
    obtain ⟨rfl, -⟩ := h
    exact ⟨rfl, ⟨[], by simp, by simp⟩⟩

/-- C4: with RedCoast active and all pre-governance steps succeeding,
Finalize fails with the invalid-sys-gov-count error exactly when the
passed-proposal count read at entry differs from the number of system
transactions; on that error nothing beyond the pre-governance state
happens and no proposal is ever executed. -/
theorem finalize_sysGovCount (env : Env) (c : Config) (header : Header)
    (txsLen sysTxsLen : Nat) (st0 st4 : FState) (count : Nat)
    (hpre : preGov env c header txsLen st0 = (st4, none))
    (hrc : c.isRedCoast header.number = true)
    (hcount : env.proposalCount = some count)
    (hlen : sysTxsLen < 2 ^ 32)
    (htr : st0.trace = []) :
    ((finalizeRun env c header txsLen sysTxsLen st0).2 = some .invalidSysGovCount
      ↔ count ≠ sysTxsLen) ∧
    (count ≠ sysTxsLen →
      finalizeRun env c header txsLen sysTxsLen st0 = (st4, some .invalidSysGovCount)) ∧
    (∀ i id, SysCall.execProposal i id ∉ st4.trace) := by
  have hmod : sysTxsLen % 2 ^ 32 = sysTxsLen := Nat.mod_eq_of_lt hlen
  have hrun : finalizeRun env c header txsLen sysTxsLen st0 =
      govStep env c header sysTxsLen st4 := by
    unfold finalizeRun
    rw [hpre]
    rfl
  have hgov : govStep env c header sysTxsLen st4 =
      (if count ≠ sysTxsLen then (st4, some .invalidSysGovCount)
       else match execLoop env st4 0 count [] with
            | (st', _, some e) => (st', some e)
            | (st', pIds, none) => finishLoop env st' pIds) := by
    unfold govStep
    rw [hrc, if_pos rfl, hcount]
    simp only [hmod]
  constructor
  · rw [hrun, hgov]
    by_cases hne : count = sysTxsLen
    · subst hne
      rw [if_neg (by simp)]
      simp only [ne_eq, not_true_eq_false, iff_false]
      intro hcontra
      rcases hex : execLoop env st4 0 count [] with ⟨stG, pIds, e⟩
      cases e with
      | none =>
        rw [hex] at hcontra
        simp only [] at hcontra
        rcases hfin : finishLoop env stG pIds with ⟨stF, ef⟩
        rw [hfin] at hcontra
        cases ef with
        | none => simp at hcontra
        | some e' =>
          have := finishLoop_err env pIds stG stF e' hfin
          simp_all
      | some e' =>
        rw [hex] at hcontra
        simp only [] at hcontra
        have := execLoop_err env count 0 st4 [] stG pIds e' hex
        rcases this with rfl | rfl <;> simp_all
    · simp [if_pos hne, hne]
  refine ⟨?_, ?_⟩
  · intro hne
    rw [hrun, hgov, if_pos hne]
  · intro i id hmem
    obtain ⟨t, ht, hall⟩ := preGov_trace env c header txsLen st0 st4 hpre
    rw [ht, htr] at hmem
    simp only [List.nil_append] at hmem
    have := hall _ hmem
    simp [isGovEvent] at this

/-- Witness for C4 at concrete inputs: two passed proposals but three
system transactions yield the invalid-sys-gov-count error. -/
theorem finalize_sysGovCount_witness :
    (finalizeRun envW cfgW hdrW 1 3 stW).2 = some .invalidSysGovCount :=
  ((finalize_sysGovCount envW cfgW hdrW 1 3 stW
      ((preGov envW cfgW hdrW 1 stW).1) 2 rfl rfl rfl (by norm_num) rfl).1).mpr (by decide)

/-- C5: in both Finalize and FinalizeAndAssemble under RedCoast, the
governance phase executes the passed proposals at indices 0..count-1 in
ascending index order and only afterwards finishes exactly those
proposal ids, in the same order; the pre-governance trace contains no
governance events, so execution and finishing are never interleaved. -/
theorem gov_two_phase :
    (∀ (env : Env) (c : Config) (header : Header) (txsLen sysTxsLen : Nat)
        (st0 st4 stG stF : FState) (count : Nat) (pIds : List Nat),
      preGov env c header txsLen st0 = (st4, none) →
      c.isRedCoast header.number = true →
      env.proposalCount = some count →
      count = sysTxsLen % 2 ^ 32 →
      execLoop env st4 0 count [] = (stG, pIds, none) →
      finishLoop env stG pIds = (stF, none) →
      st0.trace = [] →
      finalizeRun env c header txsLen sysTxsLen st0 = (stF, none) ∧
      pIds.length = count ∧
      (∀ k, k < count → env.propAt k = some (pIds.getD k 0)) ∧
      stF.trace = st4.trace
        ++ (List.range count).map (fun k => SysCall.execProposal k (pIds.getD k 0))
        ++ pIds.map SysCall.finishProposal ∧
      (∀ e ∈ st4.trace, isGovEvent e = false)) ∧
    (∀ (env : Env) (c : Config) (header : Header) (txsLen : Nat)
        (st0 st4 stG stF : FState) (count : Nat) (pIds : List Nat),
      preGovA env c header txsLen st0 = (st4, none) →
      c.isRedCoast header.number = true →
      env.proposalCount = some count →
      execLoop env st4 0 count [] = (stG, pIds, none) →
      finishLoop env stG pIds = (stF, none) →
      st0.trace = [] →
      finalizeAndAssembleRun env c header txsLen true st0 = (stF, none) ∧
      pIds.length = count ∧
      (∀ k, k < count → env.propAt k = some (pIds.getD k 0)) ∧
      stF.trace = st4.trace
        ++ (List.range count).map (fun k => SysCall.execProposal k (pIds.getD k 0))
        ++ pIds.map SysCall.finishProposal ∧
      (∀ e ∈ st4.trace, isGovEvent e = false)) := by
  constructor
  · intro env c header txsLen sysTxsLen st0 st4 stG stF count pIds
      hpre hrc hcount hsys hexec hfin htr0
    obtain ⟨hbalE, newIds, hids, hlen, hprop, htrE⟩ :=
      execLoop_ok env count 0 st4 [] stG pIds hexec
    obtain ⟨hbalF, htrF⟩ := finishLoop_ok env pIds stG stF hfin
    obtain ⟨tpre, htpre, hepre⟩ := preGov_trace env c header txsLen st0 st4 hpre
    simp only [List.nil_append] at hids
    subst hids
    refine ⟨?_, hlen, ?_, ?_, ?_⟩
    · have hne : ¬ (count ≠ sysTxsLen % 2 ^ 32) := by simp [hsys]
      have hgov : govStep env c header sysTxsLen st4 = finishLoop env stG pIds := by
        unfold govStep
        rw [hrc, if_pos rfl, hcount]
        simp only [if_neg hne, hexec]
      unfold finalizeRun
      rw [hpre]
      show govStep env c header sysTxsLen st4 = (stF, none)
      rw [hgov]
      exact hfin
    · intro k hk
      simpa using hprop k hk
    · rw [htrF, htrE]
      simp
    · intro e he
      rw [htpre, htr0] at he
      simp only [List.nil_append] at he
      exact hepre e he
  · intro env c header txsLen st0 st4 stG stF count pIds
      hpre hrc hcount hexec hfin htr0
    obtain ⟨hbalE, newIds, hids, hlen, hprop, htrE⟩ :=
      execLoop_ok env count 0 st4 [] stG pIds hexec
    obtain ⟨hbalF, htrF⟩ := finishLoop_ok env pIds stG stF hfin
    obtain ⟨tpre, htpre, hepre⟩ := preGovA_trace env c header txsLen st0 st4 hpre
    simp only [List.nil_append] at hids
    subst hids
    refine ⟨?_, hlen, ?_, ?_, ?_⟩
    · have hgov : govStepA env c header true st4 = finishLoop env stG pIds := by
        unfold govStepA
        rw [if_pos ⟨rfl, hrc⟩, hcount]
        simp only [hexec]
      unfold finalizeAndAssembleRun
      rw [hpre]
      show govStepA env c header true st4 = (stF, none)
      rw [hgov]
      exact hfin
    · intro k hk
      simpa using hprop k hk
    · rw [htrF, htrE]
      simp
    · intro e he
      rw [htpre, htr0] at he
      simp only [List.nil_append] at he
      exact hepre e he

/-- Witness for C5: the concrete run with proposals (0 ↦ 7, 1 ↦ 3)
executes indices 0 then 1, then finishes ids 7 then 3, in both paths. -/
theorem gov_two_phase_witness :
    finalizeRun envW cfgW hdrW 1 2 stW = ((finishLoop envW
        ((execLoop envW ((preGov envW cfgW hdrW 1 stW).1) 0 2 []).1)
        ((execLoop envW ((preGov envW cfgW hdrW 1 stW).1) 0 2 []).2.1)).1, none) ∧
    finalizeAndAssembleRun envW cfgW hdrW 1 true stW = ((finishLoop envW
        ((execLoop envW ((preGovA envW cfgW hdrW 1 stW).1) 0 2 []).1)
        ((execLoop envW ((preGovA envW cfgW hdrW 1 stW).1) 0 2 []).2.1)).1, none) :=
  ⟨(gov_two_phase.1 envW cfgW hdrW 1 2 stW ((preGov envW cfgW hdrW 1 stW).1)
      ((execLoop envW ((preGov envW cfgW hdrW 1 stW).1) 0 2 []).1)
      ((finishLoop envW ((execLoop envW ((preGov envW cfgW hdrW 1 stW).1) 0 2 []).1)
        ((execLoop envW ((preGov envW cfgW hdrW 1 stW).1) 0 2 []).2.1)).1)
      2 ((execLoop envW ((preGov envW cfgW hdrW 1 stW).1) 0 2 []).2.1)
      rfl rfl rfl (by norm_num) rfl rfl rfl).1,
   (gov_two_phase.2 envW cfgW hdrW 1 stW ((preGovA envW cfgW hdrW 1 stW).1)
      ((execLoop envW ((preGovA envW cfgW hdrW 1 stW).1) 0 2 []).1)
      ((finishLoop envW ((execLoop envW ((preGovA envW cfgW hdrW 1 stW).1) 0 2 []).1)
        ((execLoop envW ((preGovA envW cfgW hdrW 1 stW).1) 0 2 []).2.1)).1)
      2 ((execLoop envW ((preGovA envW cfgW hdrW 1 stW).1) 0 2 []).2.1)
      rfl rfl rfl rfl rfl rfl).1⟩

/-- C6: for a block with at least one user transaction, a successful
Finalize leaves the fee-recorder balance at zero, and when a positive fee
was accumulated the distributeBlockReward call is made by the coinbase
with exactly that fee, at a moment when the fee has already been credited
to the coinbase balance. -/
theorem finalize_feeRecorder (env : Env) (c : Config) (header : Header)
    (txsLen sysTxsLen : Nat) (st0 st' : FState)
    (hrun : finalizeRun env c header txsLen sysTxsLen st0 = (st', none))
    (htx : 0 < txsLen) :
    st'.balances FeeRecoder = 0 ∧
    (0 < st0.balances FeeRecoder → header.coinbase ≠ FeeRecoder →
      SysCall.distributeReward header.coinbase (st0.balances FeeRecoder)
        (st0.balances header.coinbase + st0.balances FeeRecoder) ∈ st'.trace) := by
  unfold finalizeRun at hrun
  obtain ⟨st4, hpre, hgov⟩ := stepBind_ok _ _ _ hrun
  unfold preGov at hpre
  obtain ⟨st1, h1, hpre⟩ := stepBind_ok _ _ _ hpre
  obtain ⟨st2, h2, hpre⟩ := stepBind_ok _ _ _ hpre
  obtain ⟨st3, h3, h4⟩ := stepBind_ok _ _ _ hpre
  have hb1 : st1.balances = st0.balances := by
    have hc := (initStep_char env header st0).1
    rw [h1] at hc
    exact hc
  have hb2 : st2.balances = st1.balances := by
    have hc := (punishStep_char env header st1).1
    rw [h2] at hc
    exact hc
  have hbe : st4.balances = st3.balances := by
    have hc := (epochStep_char env c header st3).1
    rw [h4] at hc
    exact hc
  have hte : ∃ t4, st4.trace = st3.trace ++ t4 := by
    obtain ⟨-, t4, ht4, -⟩ := epochStep_char env c header st3
    rw [h4] at ht4
    exact ⟨t4, ht4⟩
  obtain ⟨hbg, tg, htg, -⟩ := govStep_ok_char env c header sysTxsLen st4 st' hgov
  unfold rewardStep at h3
  rw [if_pos htx] at h3
  unfold trySendBlockReward at h3
  by_cases hfee : st2.balances FeeRecoder = 0
  · rw [if_pos hfee] at h3
    simp only [Prod.mk.injEq] at h3
    obtain ⟨rfl, -⟩ := h3
    constructor
    · rw [hbg, hbe, hb2, hb1]
      rw [hb2, hb1] at hfee
      exact hfee
    · intro hf0 _
      rw [hb2, hb1] at hfee
      omega
  · rw [if_neg hfee] at h3
    cases hok : env.rewardCallOk with
    | false => rw [hok] at h3; simp at h3
    | true =>
      rw [hok] at h3
      simp only [if_true, Prod.mk.injEq] at h3
      obtain ⟨hst3, -⟩ := h3
      constructor
      · rw [hbg, hbe, ← hst3]
        simp [setBalance]
      · intro hf0 hcb
        obtain ⟨t4, ht4⟩ := hte
        rw [htg, ht4, ← hst3]
        have hev : SysCall.distributeReward header.coinbase (st0.balances FeeRecoder)
            (st0.balances header.coinbase + st0.balances FeeRecoder) =
            SysCall.distributeReward header.coinbase (st2.balances FeeRecoder)
              (setBalance (addBalance st2.balances header.coinbase
                  (st2.balances FeeRecoder)) FeeRecoder 0 header.coinbase) := by
          rw [hb2, hb1]
          simp [setBalance, addBalance, hcb]
        rw [hev]
        simp

/-- Witness for C6: the concrete run zeroes the fee recorder and records
the reward call by coinbase 20 with fee 50 after crediting it (7 + 50). -/
theorem finalize_feeRecorder_witness :
    ((finalizeRun envW cfgW hdrW 1 2 stW).1).balances FeeRecoder = 0 ∧
    SysCall.distributeReward 20 50 57 ∈ ((finalizeRun envW cfgW hdrW 1 2 stW).1).trace :=
  ⟨(finalize_feeRecorder envW cfgW hdrW 1 2 stW
      ((finalizeRun envW cfgW hdrW 1 2 stW).1) rfl (by decide)).1,
   (finalize_feeRecorder envW cfgW hdrW 1 2 stW
      ((finalizeRun envW cfgW hdrW 1 2 stW).1) rfl (by decide)).2 (by decide) (by decide)⟩

/-- C7: for an out-of-turn block (difficulty not 2), a successful
Finalize records a punish call exactly for the expected in-turn validator
validators[number % len(validators)] of the parent snapshot, and only
when that validator appears nowhere as a signer in Recents. -/
theorem finalize_punish (env : Env) (c : Config) (header : Header)
    (txsLen sysTxsLen : Nat) (st0 st' : FState) (snap : Snapshot) (d : Nat)
    (hrun : finalizeRun env c header txsLen sysTxsLen st0 = (st', none))
    (hd : header.difficulty = some d) (hd2 : d ≠ 2)
    (hsnap : env.snapResult = some snap)
    (hvals : snap.validators ≠ [])
    (htr : st0.trace = []) :
    ∀ w, SysCall.punish w ∈ st'.trace ↔
      (w = snap.validators.getD (header.number % snap.validators.length) 0 ∧
        ∀ p ∈ snap.recents, p.2 ≠ w) := by
  unfold finalizeRun at hrun
  obtain ⟨st4, hpre, hgov⟩ := stepBind_ok _ _ _ hrun
  unfold preGov at hpre
  obtain ⟨st1, h1, hpre⟩ := stepBind_ok _ _ _ hpre
  obtain ⟨st2, h2, hpre⟩ := stepBind_ok _ _ _ hpre
  obtain ⟨st3, h3, h4⟩ := stepBind_ok _ _ _ hpre
  obtain ⟨-, t1, ht1, he1⟩ := initStep_char env header st0
  rw [h1] at ht1
  obtain ⟨t3, ht3, he3⟩ := rewardStep_char env header txsLen st2
  rw [h3] at ht3
  obtain ⟨-, t4, ht4, he4⟩ := epochStep_char env c header st3
  rw [h4] at ht4
  obtain ⟨-, tg, htg, heg⟩ := govStep_ok_char env c header sysTxsLen st4 st' hgov
  unfold punishStep at h2
  rw [hd, if_neg (by simp [hd2])] at h2
  unfold tryPunishValidator at h2
  rw [hsnap] at h2
  simp only [] at h2
  cases hsr : snap.recents.any
      (fun p => p.2 == snap.validators.getD (header.number % snap.validators.length) 0) with
  | false =>
    rw [hsr] at h2
    simp only [if_pos rfl] at h2
    cases hok : env.punishCallOk with
    | false => rw [hok] at h2; simp at h2
    | true =>
      rw [hok] at h2
      simp only [if_true, Prod.mk.injEq] at h2
      obtain ⟨hst2, -⟩ := h2
      intro w
      have hfull : st'.trace = t1 ++ ([SysCall.punish
          (snap.validators.getD (header.number % snap.validators.length) 0)] ++ (t3 ++ (t4 ++ tg))) := by
        rw [htg, ht4, ht3, ← hst2, ht1, htr]
        simp
      have hrec : ∀ p ∈ snap.recents,
          p.2 ≠ snap.validators.getD (header.number % snap.validators.length) 0 := by
        intro p hp
        have := List.any_eq_false.mp hsr p hp
        simpa using this
      rw [hfull]
      simp only [List.mem_append, List.mem_singleton]
      constructor
      · intro hmem
        rcases hmem with hm | hm | hm | hm | hm
        · have := he1 _ hm; simp at this
        · have hw : w = snap.validators.getD (header.number % snap.validators.length) 0 := by
            injection hm
          exact ⟨hw, hw ▸ hrec⟩
        · obtain ⟨cb, f, b, hev⟩ := he3 _ hm; simp at hev
        · obtain ⟨v', hev⟩ := he4 _ hm; simp at hev
        · have := heg _ hm; simp [isGovEvent] at this
      · rintro ⟨hw, -⟩
        subst hw
        simp
  | true =>
    rw [hsr] at h2
    simp at h2
    obtain ⟨rfl, -⟩ := h2
    intro w
    have hfull : st'.trace = t1 ++ (t3 ++ (t4 ++ tg)) := by
      rw [htg, ht4, ht3, ht1, htr]
      simp
    obtain ⟨p, hp, hpv⟩ := List.any_eq_true.mp hsr
    have hpv' : p.2 = snap.validators.getD (header.number % snap.validators.length) 0 := by
      simpa using hpv
    rw [hfull]
    simp only [List.mem_append]
    constructor
    · intro hmem
      rcases hmem with hm | hm | hm | hm
      · have := he1 _ hm; simp at this
      · obtain ⟨cb, f, b, hev⟩ := he3 _ hm; simp at hev
      · obtain ⟨v', hev⟩ := he4 _ hm; simp at hev
      · have := heg _ hm; simp [isGovEvent] at this
    · rintro ⟨hw, hall⟩
      exact absurd (hpv'.trans hw.symm) (hall p hp)

/-- Witness for C7: in the concrete run the expected in-turn validator 12
has not signed recently and a punish call for it is recorded. -/
theorem finalize_punish_witness :
    SysCall.punish 12 ∈ ((finalizeRun envW cfgW hdrW 1 2 stW).1).trace :=
  (finalize_punish envW cfgW hdrW 1 2 stW ((finalizeRun envW cfgW hdrW 1 2 stW).1)
      ⟨4, [10, 11, 12], []⟩ 1 rfl rfl (by decide) rfl (by decide) rfl 12).mpr
    ⟨by decide, by simp⟩

/-- An entry of the recents map survives an applyRecents step unless it is
the evicted key or the overwritten key. -/
theorem applyRecents_mem (valCount : Nat) (recents : List (Nat × Address)) (number : Nat)
    (signer : Address) (k : Nat) (a : Address)
    (hmem : (k, a) ∈ recents) (hk : k ≠ number)
    (hev : valCount / 2 + 1 ≤ number → k ≠ number - (valCount / 2 + 1)) :
    (k, a) ∈ applyRecents valCount recents number signer := by
  unfold applyRecents
  refine List.mem_cons_of_mem _ (List.mem_filter.mpr ⟨?_, by simpa using hk⟩)
  split
  · next hle => exact List.mem_filter.mpr ⟨hmem, by simpa using hev hle⟩
  · exact hmem

/-- applyRecents keeps all keys below the successor block number. -/
theorem applyRecents_keys (valCount : Nat) (recents : List (Nat × Address)) (n : Nat)
    (s : Address) (hkeys : ∀ p ∈ recents, p.1 < n) :
    ∀ p ∈ applyRecents valCount recents n s, p.1 < n + 1 := by
  intro p hp
  unfold applyRecents at hp
  rcases List.mem_cons.mp hp with rfl | hp'
  · omega
  · have hpr : p ∈ (if valCount / 2 + 1 ≤ n then
        recents.filter (fun q => q.1 ≠ n - (valCount / 2 + 1)) else recents) :=
      (List.mem_filter.mp hp').1
    have hrec : p ∈ recents := by
      revert hpr
      split
      · intro hpr; exact (List.mem_filter.mp hpr).1
      · intro hpr; exact hpr
    have := hkeys p hrec
    omega

/-- In an accepted chain, the signer of the block j steps ahead differs
from any recents entry that is still within the window at that block. -/
theorem chain_no_dup_aux (vals : List Address) :
    ∀ (signers : List Address) (recents : List (Nat × Address)) (n : Nat),
      ChainAccepted vals recents n signers →
      (∀ p ∈ recents, p.1 < n) →
      ∀ (j : Nat) (hj : j < signers.length) (k : Nat) (a : Address),
        (k, a) ∈ recents →
        n + j < k + (vals.length / 2 + 1) →
        vals.length / 2 + 1 ≤ n + j →
        n + j < 2 ^ 64 →
        signers.get ⟨j, hj⟩ ≠ a := by
  intro signers
  induction signers with
  | nil =>
    intro recents n _ _ j hj
    exact absurd hj (by simp)
  | cons s rest ih =>
    intro recents n hchain hkeys j hj k a hmem hwin hlim hbound
    cases hchain with
    | cons _ _ _ _ header hnum hseal hrest =>
      cases j with
      | zero =>
        show s ≠ a
        intro heq
        subst heq
        have hok := (verifySeal_ok_iff ⟨n, vals, recents⟩ header s).mp hseal
        have hrc := hok.2.2.2.1
        rw [hnum] at hrc
        have hfalse := List.any_eq_false.mp hrc (k, s) hmem
        have hgo : goSub64 n (vals.length / 2 + 1) = n - (vals.length / 2 + 1) :=
          goSub64_eq_sub (by omega) (by omega)
        rw [hgo] at hfalse
        exact hfalse (by
          have hlt : n - (vals.length / 2 + 1) < k := by omega
          simp [hlt])
      | succ j' =>
        have hj' : j' < rest.length := by simpa using hj
        have hkn : k < n := hkeys (k, a) hmem
        have hmem' : (k, a) ∈ applyRecents vals.length recents n s :=
          applyRecents_mem vals.length recents n s k a hmem (by omega) (fun hle => by omega)
        have hkeys' := applyRecents_keys vals.length recents n s hkeys
        have hres := ih (applyRecents vals.length recents n s) (n + 1) hrest hkeys' j' hj'
          k a hmem' (by omega) (by omega) (by omega)
        simpa using hres

/-- For any two blocks of an accepted chain within a recently-signed
window ending at height at least the window size, the signers differ. -/
theorem chain_window_aux (vals : List Address) :
    ∀ (i : Nat) (signers : List Address) (recents : List (Nat × Address)) (n j : Nat),
      ChainAccepted vals recents n signers →
      (∀ p ∈ recents, p.1 < n) →
      ∀ (hi : i < signers.length) (hj : j < signers.length),
        i < j → j - i < vals.length / 2 + 1 →
        vals.length / 2 + 1 ≤ n + j → n + j < 2 ^ 64 →
        signers.get ⟨i, hi⟩ ≠ signers.get ⟨j, hj⟩ := by
  intro i
  induction i with
  | zero =>
    intro signers recents n j hchain hkeys hi hj hij hwin hlim hbound
    cases signers with
    | nil => simp at hi
    | cons s rest =>
      cases hchain with
      | cons _ _ _ _ header hnum hseal hrest =>
        cases j with
        | zero => omega
        | succ j' =>
          have hj' : j' < rest.length := by simpa using hj
          have hmem : (n, s) ∈ applyRecents vals.length recents n s := by
            unfold applyRecents
            exact List.mem_cons_self _ _
          have hkeys' := applyRecents_keys vals.length recents n s hkeys
          have hres := chain_no_dup_aux vals rest
            (applyRecents vals.length recents n s) (n + 1) hrest hkeys' j' hj' n s hmem
            (by omega) (by omega) (by omega)
          show (s :: rest).get ⟨0, hi⟩ ≠ (s :: rest).get ⟨j' + 1, hj⟩
          simpa using fun hcon => hres hcon.symm
  | succ i' ih =>
    intro signers recents n j hchain hkeys hi hj hij hwin hlim hbound
    cases signers with
    | nil => simp at hi
    | cons s rest =>
      cases hchain with
      | cons _ _ _ _ header hnum hseal hrest =>
        cases j with
        | zero => omega
        | succ j' =>
          have hi' : i' < rest.length := by simpa using hi
          have hj' : j' < rest.length := by simpa using hj
          have hkeys' := applyRecents_keys vals.length recents n s hkeys
          have hres := ih rest (applyRecents vals.length recents n s) (n + 1) j'
            hrest hkeys' hi' hj' (by omega) (by omega) (by omega) (by omega)
          simpa using hres

/-- C3 (amended): for blocks at height at least the window size
len(validators)/2 + 1 (below it the Go uint64 subtraction wraps and the
check never fires), verifySeal rejects with the recently-signed error any
signer occurring in Recents at seen > number - window; consequently, in
any chain of consecutive blocks accepted by verifySeal, two blocks within
one window whose later height is at least the window size have distinct
signers. -/
theorem recentlySigned_window :
    (∀ (snap : Snapshot) (header : Header) (s : Address) (seen : Nat),
      snap.validators.length / 2 + 1 ≤ header.number →
      header.number < 2 ^ 64 →
      s = header.coinbase →
      s ∈ snap.validators →
      (seen, s) ∈ snap.recents →
      header.number - (snap.validators.length / 2 + 1) < seen →
      verifySeal snap header (some s) false = .error .recentlySigned) ∧
    (∀ (vals signers : List Address) (recents : List (Nat × Address)) (n : Nat),
      ChainAccepted vals recents n signers →
      (∀ p ∈ recents, p.1 < n) →
      ∀ (i j : Nat) (hi : i < signers.length) (hj : j < signers.length),
        i < j → j - i < vals.length / 2 + 1 →
        vals.length / 2 + 1 ≤ n + j → n + j < 2 ^ 64 →
        signers.get ⟨i, hi⟩ ≠ signers.get ⟨j, hj⟩) := by
  constructor
  · intro snap header s seen hlim hbound hcb hmem hrec hgt
    have hrc : recentlySignedCheck snap header.number s = true := by
      unfold recentlySignedCheck
      rw [List.any_eq_true]
      refine ⟨(seen, s), hrec, ?_⟩
      rw [goSub64_eq_sub hlim hbound]
      simp [hgt]
    have hn0 : ¬ header.number = 0 := by omega
    subst hcb
    unfold verifySeal
    simp [hn0, hmem, hrc]
  · intro vals signers recents n hchain hkeys i j hi hj hij hwin hlim hbound
    exact chain_window_aux vals i signers recents n j hchain hkeys hi hj hij hwin hlim hbound

/-- Counterexample to C3 as stated: with four validators (window 3),
verifySeal accepts validator 11 signing both block 1 and block 2 — the
wrapped uint64 comparison never fires below the window size — so the same
signer appears twice inside a window of 3 consecutive blocks, and the
claimed rejection (seen = 1 > 2 - 3 over the integers) does not happen. -/
theorem recentlySigned_window_counterexample :
    ChainAccepted vals4 [] 1 [11, 11] ∧
    vals4.length / 2 + 1 = 3 ∧
    (1, 11) ∈ ([(1, 11)] : List (Nat × Address)) ∧
    ((1 : Int) > 2 - 3) ∧
    verifySeal ⟨2, vals4, [(1, 11)]⟩ hdrB2 (some 11) false = .ok () :=
  ⟨ChainAccepted.cons _ _ _ _ hdrB1 rfl rfl
      (ChainAccepted.cons _ _ _ _ hdrB2 rfl rfl (ChainAccepted.nil _ _)),
   rfl, by simp, by decide, rfl⟩

/-- Witness for C3 (amended): a two-validator chain (window 2) where
blocks 1 and 2 are accepted with signers 10 and 11; the theorem forces
them distinct, and validator 10 retrying at block 2 is rejected. -/
theorem recentlySigned_window_witness :
    (10 : Address) ≠ 11 ∧
    verifySeal ⟨1, vals2, [(1, 10)]⟩ hdrE (some 10) false = .error .recentlySigned :=
  ⟨recentlySigned_window.2 vals2 [10, 11] [] 1
      (ChainAccepted.cons _ _ _ _ hdrD1 rfl rfl
        (ChainAccepted.cons _ _ _ _ hdrD2 rfl rfl (ChainAccepted.nil _ _)))
      (by simp) 0 1 (by decide) (by decide) (by decide) (by decide) (by decide) (by decide),
   recentlySigned_window.1 ⟨1, vals2, [(1, 10)]⟩ hdrE 10 1 (by decide) (by decide) rfl
      (by decide) (by simp) (by decide)⟩
